import Mathlib

/-!
Verification development for the wardrobe-app repository
(closetGPT: item embedding store & outfit compatibility engine).

Shallow embedding conventions:
- The label codec is translated from
  `wardrobe-app/components/ImageModal.tsx` (`WEATHER_LABELS`,
  `FORMALITY_LABELS`, `decodeBinaryLabels`) and the bitmask encoding in
  `handleSaveMetadata`.
- The wardrobe metadata route is translated from
  `wardrobe-app/app/api/wardrobe/route.ts` (`GET`).
- The database cascade model follows `backend/migrations/schema.sql`
  (`item_embeddings.item_id ... ON DELETE CASCADE`).
- The compatibility scorer, outfit assembler and feedback aggregator are
  absent from the repository snapshot (only their HTTP callers, types and
  the schema exist); those are modelled from the spec, as marked on each
  definition.

Machine integers: the bitmask values are small nonnegative ints, modelled
as `Nat` with `&&&`/`|||`; vote scores are signed, modelled as `Int`.
-/

namespace Wardrobe

/-! ## Label codec (from `components/ImageModal.tsx`) -/

/-- Weather bit-to-label table, from `WEATHER_LABELS` in `ImageModal.tsx`
(`0b0001: 'Hot', 0b0010: 'Cold', 0b0100: 'Rainy'`).  JavaScript iterates
numeric object keys in ascending order, hence this list order. -/
def WEATHER_LABELS : List (Nat × String) :=
  [(1, "Hot"), (2, "Cold"), (4, "Rainy")]

/-- Formality bit-to-label table, from `FORMALITY_LABELS` in
`ImageModal.tsx` (`0b0001: 'Casual', 0b0010: 'Formal', 0b0100: 'Sports',
0b1000: 'Party'`). -/
def FORMALITY_LABELS : List (Nat × String) :=
  [(1, "Casual"), (2, "Formal"), (4, "Sports"), (8, "Party")]

/-- `decodeBinaryLabels` from `ImageModal.tsx`: returns `[]` when the value
is `undefined` or `0` (the `undefined` case is guarded at every call site
and coincides with the `0` case, both yielding `[]`); otherwise collects,
in table order, every label whose bit satisfies `(value & bit) === bit`. -/
def decodeBinaryLabels (value : Nat) (labelMap : List (Nat × String)) : List String :=
  if value = 0 then []
  else (labelMap.filter (fun p => value &&& p.1 == p.1)).map Prod.snd

/-- The bitmask encoding used in `handleSaveMetadata` in `ImageModal.tsx`
(part_002): `Object.entries(table).reduce((acc, [label, bit]) => { if
(selected.includes(label)) acc |= bit; return acc; }, 0)`. -/
def encodeBinaryLabels (selected : List String) (labelMap : List (Nat × String)) : Nat :=
  labelMap.foldl (fun acc p => if p.2 ∈ selected then acc ||| p.1 else acc) 0

/-- The weather bitmask written by `handleSaveMetadata`:
`selectedWeatherLabels.length > 0 ? <reduce> : 0`. -/
def weatherLabelOf (selected : List String) : Nat :=
  if selected.length > 0 then encodeBinaryLabels selected WEATHER_LABELS else 0

/-- The formality bitmask written by `handleSaveMetadata`. -/
def formalityLabelOf (selected : List String) : Nat :=
  if selected.length > 0 then encodeBinaryLabels selected FORMALITY_LABELS else 0

/-! ### Codec lemmas -/

/-- The encoder only looks at which labels are members of the selection,
never at their order or multiplicity. -/
theorem encodeBinaryLabels_congr (S S' : List String) (h : ∀ l, l ∈ S ↔ l ∈ S')
    (table : List (Nat × String)) :
    encodeBinaryLabels S table = encodeBinaryLabels S' table := by
  have key : ∀ (t : List (Nat × String)) (acc : Nat),
      t.foldl (fun acc p => if p.2 ∈ S then acc ||| p.1 else acc) acc =
      t.foldl (fun acc p => if p.2 ∈ S' then acc ||| p.1 else acc) acc := by
    intro t
    induction t with
    | nil => intro acc; rfl
    | cons p t ih =>
        intro acc
        simp only [List.foldl_cons]
        rw [if_congr (h p.2) rfl rfl]
        exact ih _
  exact key _ 0

theorem weatherLabelOf_eq (S : List String) :
    weatherLabelOf S = encodeBinaryLabels S WEATHER_LABELS := by
  unfold weatherLabelOf
  split
  · rfl
  · next hlen =>
      have hnil : S = [] := List.eq_nil_of_length_eq_zero (by omega)
      subst hnil; rfl

theorem formalityLabelOf_eq (S : List String) :
    formalityLabelOf S = encodeBinaryLabels S FORMALITY_LABELS := by
  unfold formalityLabelOf
  split
  · rfl
  · next hlen =>
      have hnil : S = [] := List.eq_nil_of_length_eq_zero (by omega)
      subst hnil; rfl

/-- Membership in the decoded weather label list, one disjunct per table
entry, valid for every bitmask including `0`. -/
theorem mem_decodeWeather (v : Nat) (l : String) :
    l ∈ decodeBinaryLabels v WEATHER_LABELS ↔
      ((l = "Hot" ∧ v &&& 1 = 1) ∨ (l = "Cold" ∧ v &&& 2 = 2) ∨
        (l = "Rainy" ∧ v &&& 4 = 4)) := by
  by_cases hv : v = 0
  · subst hv; simp [decodeBinaryLabels]
  · simp only [decodeBinaryLabels, if_neg hv, WEATHER_LABELS, List.mem_map,
      List.mem_filter]
    constructor
    · rintro ⟨p, ⟨hp, hbit⟩, rfl⟩
      simp only [List.mem_cons, List.not_mem_nil, or_false] at hp
      rcases hp with rfl | rfl | rfl <;>
        simp_all [Nat.beq_eq_true_eq]
    · rintro (⟨rfl, hb⟩ | ⟨rfl, hb⟩ | ⟨rfl, hb⟩)
      · exact ⟨(1, "Hot"), ⟨by simp, by simpa using hb⟩, rfl⟩
      · exact ⟨(2, "Cold"), ⟨by simp, by simpa using hb⟩, rfl⟩
      · exact ⟨(4, "Rainy"), ⟨by simp, by simpa using hb⟩, rfl⟩

/-- Membership in the decoded formality label list. -/
theorem mem_decodeFormality (v : Nat) (l : String) :
    l ∈ decodeBinaryLabels v FORMALITY_LABELS ↔
      ((l = "Casual" ∧ v &&& 1 = 1) ∨ (l = "Formal" ∧ v &&& 2 = 2) ∨
        (l = "Sports" ∧ v &&& 4 = 4) ∨ (l = "Party" ∧ v &&& 8 = 8)) := by
  by_cases hv : v = 0
  · subst hv; simp [decodeBinaryLabels]
  · simp only [decodeBinaryLabels, if_neg hv, FORMALITY_LABELS, List.mem_map,
      List.mem_filter]
    constructor
    · rintro ⟨p, ⟨hp, hbit⟩, rfl⟩
      simp only [List.mem_cons, List.not_mem_nil, or_false] at hp
      rcases hp with rfl | rfl | rfl | rfl <;>
        simp_all [Nat.beq_eq_true_eq]
    · rintro (⟨rfl, hb⟩ | ⟨rfl, hb⟩ | ⟨rfl, hb⟩ | ⟨rfl, hb⟩)
      · exact ⟨(1, "Casual"), ⟨by simp, by simpa using hb⟩, rfl⟩
      · exact ⟨(2, "Formal"), ⟨by simp, by simpa using hb⟩, rfl⟩
      · exact ⟨(4, "Sports"), ⟨by simp, by simpa using hb⟩, rfl⟩
      · exact ⟨(8, "Party"), ⟨by simp, by simpa using hb⟩, rfl⟩

/-- How each weather bit of the encoded mask reflects membership. -/
theorem encodeWeather_and (S : List String) :
    (encodeBinaryLabels S WEATHER_LABELS &&& 1 = 1 ↔ "Hot" ∈ S) ∧
    (encodeBinaryLabels S WEATHER_LABELS &&& 2 = 2 ↔ "Cold" ∈ S) ∧
    (encodeBinaryLabels S WEATHER_LABELS &&& 4 = 4 ↔ "Rainy" ∈ S) := by
  by_cases h1 : "Hot" ∈ S <;> by_cases h2 : "Cold" ∈ S <;> by_cases h3 : "Rainy" ∈ S <;>
    simp [encodeBinaryLabels, WEATHER_LABELS, h1, h2, h3] <;> decide

/-- How each formality bit of the encoded mask reflects membership. -/
theorem encodeFormality_and (S : List String) :
    (encodeBinaryLabels S FORMALITY_LABELS &&& 1 = 1 ↔ "Casual" ∈ S) ∧
    (encodeBinaryLabels S FORMALITY_LABELS &&& 2 = 2 ↔ "Formal" ∈ S) ∧
    (encodeBinaryLabels S FORMALITY_LABELS &&& 4 = 4 ↔ "Sports" ∈ S) ∧
    (encodeBinaryLabels S FORMALITY_LABELS &&& 8 = 8 ↔ "Party" ∈ S) := by
  by_cases h1 : "Casual" ∈ S <;> by_cases h2 : "Formal" ∈ S <;>
    by_cases h3 : "Sports" ∈ S <;> by_cases h4 : "Party" ∈ S <;>
    simp [encodeBinaryLabels, FORMALITY_LABELS, h1, h2, h3, h4] <;> decide

/-- If `w` shares no bit with the mask `m` and `b`'s bits all lie in `m`,
then `w` shares no bit with `b`. -/
theorem and_eq_zero_of_subset (w b m : Nat) (hw : w &&& m = 0) (hb : b &&& m = b) :
    w &&& b = 0 := by
  calc w &&& b = w &&& (b &&& m) := by rw [hb]
    _ = (w &&& b) &&& m := (Nat.and_assoc w b m).symm
    _ = (b &&& w) &&& m := by rw [Nat.and_comm w b]
    _ = b &&& (w &&& m) := Nat.and_assoc b w m
    _ = b &&& 0 := by rw [hw]
    _ = 0 := Nat.and_zero b

/-- Bits disjoint from the mask `m` do not affect `&&&` with a bit inside
`m`. -/
theorem or_and_eq_of_disjoint (v w b m : Nat) (hw : w &&& m = 0) (hb : b &&& m = b) :
    (v ||| w) &&& b = v &&& b := by
  rw [Nat.and_distrib_right, and_eq_zero_of_subset w b m hw hb, Nat.or_zero]

/-- Bits outside a family's table never affect decoding: if `w` is disjoint
from the mask `m` covering every table bit, `decode (v ||| w) = decode v`. -/
theorem decodeBinaryLabels_or_eq (v w : Nat) (table : List (Nat × String)) (m : Nat)
    (hw : w &&& m = 0) (htable : ∀ p ∈ table, p.1 ≠ 0 ∧ p.1 &&& m = p.1) :
    decodeBinaryLabels (v ||| w) table = decodeBinaryLabels v table := by
  by_cases hv : v = 0
  · subst hv
    rw [Nat.zero_or]
    by_cases hw0 : w = 0
    · subst hw0; rfl
    · unfold decodeBinaryLabels
      rw [if_neg hw0, if_pos rfl]
      have : table.filter (fun p => w &&& p.1 == p.1) = [] := by
        rw [List.filter_eq_nil_iff]
        intro p hp
        have h := htable p hp
        have hz : w &&& p.1 = 0 := and_eq_zero_of_subset w p.1 m hw h.2
        simp [hz, Ne.symm h.1]
      rw [this, List.map_nil]
  · have hvw : v ||| w ≠ 0 := by
      intro h
      apply hv
      apply Nat.eq_of_testBit_eq
      intro i
      have hbit := congrArg (fun n => n.testBit i) h
      simp only [Nat.testBit_or, Nat.zero_testBit, Bool.or_eq_false_iff] at hbit
      simp [hbit.1]
    unfold decodeBinaryLabels
    rw [if_neg hvw, if_neg hv]
    congr 1
    apply List.filter_congr
    intro p hp
    rw [or_and_eq_of_disjoint v w p.1 m hw (htable p hp).2]

/-! ## Claim theorems: label codec -/

/-- **C1.** For every valid subset `S` of a single label family's labels,
decoding the bitmask produced by the save-handler's encoding of `S` yields
exactly `S` (as a set), the encoding depends only on which labels are
selected (never on their order), and the empty selection encodes to `0` —
for both the weather and the formality family. -/
theorem C1_encode_decode_roundtrip
    (SW SF : List String)
    (hSW : ∀ l ∈ SW, l ∈ WEATHER_LABELS.map Prod.snd)
    (hSF : ∀ l ∈ SF, l ∈ FORMALITY_LABELS.map Prod.snd) :
    (∀ l, l ∈ decodeBinaryLabels (weatherLabelOf SW) WEATHER_LABELS ↔ l ∈ SW) ∧
    (∀ l, l ∈ decodeBinaryLabels (formalityLabelOf SF) FORMALITY_LABELS ↔ l ∈ SF) ∧
    (∀ SW', (∀ l, l ∈ SW ↔ l ∈ SW') → weatherLabelOf SW = weatherLabelOf SW') ∧
    (∀ SF', (∀ l, l ∈ SF ↔ l ∈ SF') → formalityLabelOf SF = formalityLabelOf SF') ∧
    weatherLabelOf [] = 0 ∧ formalityLabelOf [] = 0 := by
  refine ⟨?_, ?_, ?_, ?_, rfl, rfl⟩
  · intro l
    rw [weatherLabelOf_eq, mem_decodeWeather]
    obtain ⟨b1, b2, b3⟩ := encodeWeather_and SW
    rw [b1, b2, b3]
    constructor
    · rintro (⟨rfl, h⟩ | ⟨rfl, h⟩ | ⟨rfl, h⟩) <;> exact h
    · intro hl
      have hmem := hSW l hl
      simp only [WEATHER_LABELS, List.map_cons, List.map_nil, List.mem_cons,
        List.not_mem_nil, or_false] at hmem
      rcases hmem with rfl | rfl | rfl
      · exact Or.inl ⟨rfl, hl⟩
      · exact Or.inr (Or.inl ⟨rfl, hl⟩)
      · exact Or.inr (Or.inr ⟨rfl, hl⟩)
  · intro l
    rw [formalityLabelOf_eq, mem_decodeFormality]
    obtain ⟨b1, b2, b3, b4⟩ := encodeFormality_and SF
    rw [b1, b2, b3, b4]
    constructor
    · rintro (⟨rfl, h⟩ | ⟨rfl, h⟩ | ⟨rfl, h⟩ | ⟨rfl, h⟩) <;> exact h
    · intro hl
      have hmem := hSF l hl
      simp only [FORMALITY_LABELS, List.map_cons, List.map_nil, List.mem_cons,
        List.not_mem_nil, or_false] at hmem
      rcases hmem with rfl | rfl | rfl | rfl
      · exact Or.inl ⟨rfl, hl⟩
      · exact Or.inr (Or.inl ⟨rfl, hl⟩)
      · exact Or.inr (Or.inr (Or.inl ⟨rfl, hl⟩))
      · exact Or.inr (Or.inr (Or.inr ⟨rfl, hl⟩))
  · intro SW' h
    rw [weatherLabelOf_eq, weatherLabelOf_eq]
    exact encodeBinaryLabels_congr SW SW' h _
  · intro SF' h
    rw [formalityLabelOf_eq, formalityLabelOf_eq]
    exact encodeBinaryLabels_congr SF SF' h _

/-- Witness for C1 at the concrete selections `["Cold", "Hot"]` (weather)
and `["Party"]` (formality). -/
theorem C1_encode_decode_roundtrip_witness :
    (∀ l, l ∈ decodeBinaryLabels (weatherLabelOf ["Cold", "Hot"]) WEATHER_LABELS ↔
      l ∈ ["Cold", "Hot"]) ∧
    (∀ l, l ∈ decodeBinaryLabels (formalityLabelOf ["Party"]) FORMALITY_LABELS ↔
      l ∈ ["Party"]) ∧
    (∀ SW', (∀ l, l ∈ ["Cold", "Hot"] ↔ l ∈ SW') →
      weatherLabelOf ["Cold", "Hot"] = weatherLabelOf SW') ∧
    (∀ SF', (∀ l, l ∈ ["Party"] ↔ l ∈ SF') →
      formalityLabelOf ["Party"] = formalityLabelOf SF') ∧
    weatherLabelOf [] = 0 ∧ formalityLabelOf [] = 0 :=
  C1_encode_decode_roundtrip ["Cold", "Hot"] ["Party"] (by decide) (by decide)

/-- **C5.** For every bitmask `v` and each label family, a label is decoded
exactly when `v &&& bit = bit` for that label's table bit; `decode 0` is
the empty list (not an error); and bits of `v` outside the family's table
never affect the result. -/
theorem C5_decode_semantics (v w w' : Nat) (hw : w &&& 7 = 0) (hw' : w' &&& 15 = 0) :
    (∀ l, l ∈ decodeBinaryLabels v WEATHER_LABELS ↔
      ((l = "Hot" ∧ v &&& 1 = 1) ∨ (l = "Cold" ∧ v &&& 2 = 2) ∨
        (l = "Rainy" ∧ v &&& 4 = 4))) ∧
    (∀ l, l ∈ decodeBinaryLabels v FORMALITY_LABELS ↔
      ((l = "Casual" ∧ v &&& 1 = 1) ∨ (l = "Formal" ∧ v &&& 2 = 2) ∨
        (l = "Sports" ∧ v &&& 4 = 4) ∨ (l = "Party" ∧ v &&& 8 = 8))) ∧
    decodeBinaryLabels 0 WEATHER_LABELS = [] ∧
    decodeBinaryLabels 0 FORMALITY_LABELS = [] ∧
    decodeBinaryLabels (v ||| w) WEATHER_LABELS = decodeBinaryLabels v WEATHER_LABELS ∧
    decodeBinaryLabels (v ||| w') FORMALITY_LABELS = decodeBinaryLabels v FORMALITY_LABELS := by
  refine ⟨mem_decodeWeather v, mem_decodeFormality v, rfl, rfl, ?_, ?_⟩
  · exact decodeBinaryLabels_or_eq v w WEATHER_LABELS 7 hw (by decide)
  · exact decodeBinaryLabels_or_eq v w' FORMALITY_LABELS 15 hw' (by decide)

/-- Witness for C5 at `v = 5`, with high junk bits `w = 8` (outside the
weather table) and `w' = 16` (outside the formality table). -/
theorem C5_decode_semantics_witness :
    (∀ l, l ∈ decodeBinaryLabels 5 WEATHER_LABELS ↔
      ((l = "Hot" ∧ 5 &&& 1 = 1) ∨ (l = "Cold" ∧ 5 &&& 2 = 2) ∨
        (l = "Rainy" ∧ 5 &&& 4 = 4))) ∧
    (∀ l, l ∈ decodeBinaryLabels 5 FORMALITY_LABELS ↔
      ((l = "Casual" ∧ 5 &&& 1 = 1) ∨ (l = "Formal" ∧ 5 &&& 2 = 2) ∨
        (l = "Sports" ∧ 5 &&& 4 = 4) ∨ (l = "Party" ∧ 5 &&& 8 = 8))) ∧
    decodeBinaryLabels 0 WEATHER_LABELS = [] ∧
    decodeBinaryLabels 0 FORMALITY_LABELS = [] ∧
    decodeBinaryLabels (5 ||| 8) WEATHER_LABELS = decodeBinaryLabels 5 WEATHER_LABELS ∧
    decodeBinaryLabels (5 ||| 16) FORMALITY_LABELS = decodeBinaryLabels 5 FORMALITY_LABELS :=
  C5_decode_semantics 5 8 16 (by decide) (by decide)

/-! ## Feedback aggregator (vote application)

Modelled from the spec: the vote-application endpoint (`POST /vote` in
`backend/main.py`) is missing from the repository snapshot; only its
caller (`handleVoteOutfit` in `app/outfit/page.tsx`), the `vote_score`
column of `backend/migrations/schema.sql` and spec §4.5 describe it. -/

/-- Modelled from the spec: §4.5's clamp of `vote_score` to a configured
range (default `[-1000, 1000]`). -/
def clampScore (lo hi s : Int) : Int := max lo (min hi s)

/-- Modelled from the spec: one vote delta applied to a score, "increments
(or decrements) vote_score by the event's delta, clamped to a configured
range". -/
def applyDelta (lo hi s delta : Int) : Int := clampScore lo hi (s + delta)

/-- Modelled from the spec: sequential application of a list of vote
deltas to one item's score. -/
def applyVotes (lo hi : Int) (s : Int) : List Int → Int
  | [] => s
  | d :: ds => applyVotes lo hi (applyDelta lo hi s d) ds

/-- As long as the clamp bounds cannot be hit in any order (the start
score sits at least `ds.length` inside the range), clamped application is
plain summation. -/
theorem applyVotes_eq_sum (lo hi : Int) (ds : List Int) (s : Int)
    (hd : ∀ d ∈ ds, d = 1 ∨ d = -1)
    (hlo : lo ≤ s - ds.length) (hhi : s + ds.length ≤ hi) :
    applyVotes lo hi s ds = s + ds.sum := by
  induction ds generalizing s with
  | nil => simp [applyVotes]
  | cons d ds ih =>
      have hd1 : d = 1 ∨ d = -1 := hd d (List.mem_cons_self d ds)
      have hlen : ((d :: ds).length : Int) = (ds.length : Int) + 1 := by
        simp [List.length_cons]
      rw [hlen] at hlo hhi
      have hstep : applyDelta lo hi s d = s + d := by
        unfold applyDelta clampScore
        rcases hd1 with rfl | rfl <;>
          · rw [min_eq_right (by omega), max_eq_right (by omega)]
      rw [applyVotes, hstep, ih (s + d) (fun e he => hd e (List.mem_cons_of_mem d he))
        (by rcases hd1 with rfl | rfl <;> omega)
        (by rcases hd1 with rfl | rfl <;> omega)]
      rw [List.sum_cons]
      ring

/-- **C7 counterexample.** At the clamp boundary, vote deltas do not
commute: starting from a score of `1000`, applying `[+1, -1]` yields
`999` while the permutation `[-1, +1]` yields `1000`. -/
theorem C7_counterexample :
    List.Perm [(1 : Int), -1] [-1, 1] ∧
    (∀ d ∈ [(1 : Int), -1], d = 1 ∨ d = -1) ∧
    applyVotes (-1000) 1000 1000 [1, -1] = 999 ∧
    applyVotes (-1000) 1000 1000 [-1, 1] = 1000 ∧
    applyVotes (-1000) 1000 1000 [1, -1] ≠ applyVotes (-1000) 1000 1000 [-1, 1] := by
  refine ⟨List.Perm.swap (-1) 1 [], by decide, by decide, by decide, by decide⟩

/-- **C7 (amended).** Applying a multiset of `±1` vote deltas in any order
yields the same final `vote_score`, provided the starting score is far
enough inside the clamp range (default `[-1000, 1000]`) that no
application can hit a clamp bound; the common result is the plain sum. -/
theorem C7_vote_commutativity (s : Int) (ds ds' : List Int)
    (hperm : List.Perm ds ds')
    (hd : ∀ d ∈ ds, d = 1 ∨ d = -1)
    (hlo : -1000 ≤ s - ds.length) (hhi : s + ds.length ≤ 1000) :
    applyVotes (-1000) 1000 s ds = applyVotes (-1000) 1000 s ds' ∧
    applyVotes (-1000) 1000 s ds = s + ds.sum := by
  have h1 := applyVotes_eq_sum (-1000) 1000 ds s hd hlo hhi
  have h2 := applyVotes_eq_sum (-1000) 1000 ds' s
    (fun d hdm => hd d (hperm.mem_iff.mpr hdm))
    (by rw [← hperm.length_eq]; exact hlo)
    (by rw [← hperm.length_eq]; exact hhi)
  exact ⟨by rw [h1, h2, hperm.sum_eq], h1⟩

/-- Witness for the amended C7: score `5`, deltas `[+1, +1, -1]` against
the reordering `[-1, +1, +1]`. -/
theorem C7_vote_commutativity_witness :
    applyVotes (-1000) 1000 5 [1, 1, -1] = applyVotes (-1000) 1000 5 [-1, 1, 1] ∧
    applyVotes (-1000) 1000 5 [1, 1, -1] = 5 + [(1 : Int), 1, -1].sum :=
  C7_vote_commutativity 5 [1, 1, -1] [-1, 1, 1]
    (by decide) (by decide) (by decide) (by decide)

/-- Modelled from the spec: the item-score store seen by the feedback
aggregator (item id paired with its `vote_score`, per
`clothing_items.vote_score` in `schema.sql`). -/
structure VoteStore where
  items : List (Int × Int)
deriving DecidableEq

/-- The ids known to the store. -/
def VoteStore.knownIds (st : VoteStore) : List Int := st.items.map Prod.fst

/-- Modelled from the spec: §4.5/§7 error taxonomy for vote application. -/
inductive VoteError
  | notFound
deriving DecidableEq

/-- Modelled from the spec: `apply(vote_event)` (§4.5) — the backend
`POST /vote` handler is missing from the snapshot.  Validates every item
id first; if any id is unknown the whole event fails with
`NotFoundError` and no score is touched; otherwise every referenced
item's score is incremented by the delta, clamped to `[-1000, 1000]`. -/
def applyVoteEvent (st : VoteStore) (ids : List Int) (delta : Int) :
    Except VoteError VoteStore :=
  if ids.all (fun i => st.knownIds.contains i) then
    .ok ⟨st.items.map (fun p =>
      if p.1 ∈ ids then (p.1, clampScore (-1000) 1000 (p.2 + delta)) else p)⟩
  else .error .notFound

/-- **C8.** A vote event containing at least one unknown item id fails
with `NotFoundError`, producing no updated store at all — the stored
scores remain exactly those of the pre-event store (all-or-nothing); and
an event whose ids are all known never fails. -/
theorem C8_vote_all_or_nothing (st : VoteStore) (ids : List Int) (delta : Int) :
    ((∃ i ∈ ids, i ∉ st.knownIds) →
      applyVoteEvent st ids delta = .error .notFound) ∧
    (∀ e, applyVoteEvent st ids delta = .error e → ∃ i ∈ ids, i ∉ st.knownIds) := by
  constructor
  · rintro ⟨i, hi, hunk⟩
    unfold applyVoteEvent
    rw [if_neg]
    intro hall
    rw [List.all_eq_true] at hall
    exact hunk (by simpa [List.elem_iff] using hall i hi)
  · intro e he
    unfold applyVoteEvent at he
    by_cases hall : ids.all (fun i => st.knownIds.contains i)
    · rw [if_pos hall] at he
      exact absurd he (by simp)
    · rw [List.all_eq_true] at hall
      push_neg at hall
      obtain ⟨i, hi, hc⟩ := hall
      exact ⟨i, hi, by simpa [List.elem_iff] using hc⟩

/-- Witness for C8: a store holding items `1` and `2`, an event naming the
unknown id `3`. -/
theorem C8_vote_all_or_nothing_witness :
    ((∃ i ∈ [(1 : Int), 3], i ∉ (VoteStore.mk [(1, 0), (2, 5)]).knownIds) →
      applyVoteEvent ⟨[(1, 0), (2, 5)]⟩ [1, 3] 1 = .error .notFound) ∧
    (∀ e, applyVoteEvent ⟨[(1, 0), (2, 5)]⟩ [1, 3] 1 = .error e →
      ∃ i ∈ [(1 : Int), 3], i ∉ (VoteStore.mk [(1, 0), (2, 5)]).knownIds) :=
  C8_vote_all_or_nothing ⟨[(1, 0), (2, 5)]⟩ [1, 3] 1


/-! ## Relational store: cascading delete (from `backend/migrations/schema.sql`)

`item_embeddings.item_id BIGINT PRIMARY KEY REFERENCES
clothing_items(item_id) ON DELETE CASCADE`: an embedding row can only
reference an existing item (foreign key) and is removed together with its
item.  The store is modelled as the sets of item ids and embedding ids. -/

/-- The observable id sets of the two tables. -/
structure DBState where
  items : Finset Int
  embeddings : Finset Int
deriving DecidableEq

/-- The schema's foreign-key invariant: every `item_embeddings` row
references an existing `clothing_items` row. -/
def DBState.invariant (s : DBState) : Prop := s.embeddings ⊆ s.items

/-- The mutations the schema admits on the two tables. -/
inductive DBOp
  | insertItem (id : Int)
  | upsertEmbedding (id : Int)
  | deleteItem (id : Int)

/-- Semantics of each operation.  `upsertEmbedding` on an id with no item
row is rejected by the `REFERENCES` constraint (state unchanged);
`deleteItem` removes the item row and, by `ON DELETE CASCADE`, its
embedding row. -/
def applyOp (s : DBState) : DBOp → DBState
  | .insertItem id => ⟨insert id s.items, s.embeddings⟩
  | .upsertEmbedding id =>
      if id ∈ s.items then ⟨s.items, insert id s.embeddings⟩ else s
  | .deleteItem id => ⟨s.items.erase id, s.embeddings.erase id⟩

/-- States reachable from the empty database through the admitted
operations. -/
inductive Reachable : DBState → Prop
  | init : Reachable ⟨∅, ∅⟩
  | step {s : DBState} (op : DBOp) : Reachable s → Reachable (applyOp s op)

/-- Every operation preserves the foreign-key invariant. -/
theorem applyOp_invariant (s : DBState) (op : DBOp) (h : s.invariant) :
    (applyOp s op).invariant := by
  cases op with
  | insertItem id =>
      exact fun e he => Finset.mem_insert_of_mem (h he)
  | upsertEmbedding id =>
      by_cases hid : id ∈ s.items
      · simp only [applyOp, if_pos hid]
        intro e he
        rcases Finset.mem_insert.mp he with rfl | he'
        · exact hid
        · exact h he'
      · simpa only [applyOp, if_neg hid] using h
  | deleteItem id =>
      intro e he
      have hne : e ≠ id := Finset.ne_of_mem_erase he
      exact Finset.mem_erase_of_ne_of_mem hne (h (Finset.mem_of_mem_erase he))

/-- **C9.** After `delete(item_id)` neither the item row nor its embedding
row is observable, and every state reachable from the empty database
satisfies the no-orphaned-embeddings invariant (embeddings ⊆ items),
preserved by every operation. -/
theorem C9_cascade_no_orphans :
    (∀ (s : DBState) (id : Int),
      id ∉ (applyOp s (.deleteItem id)).items ∧
      id ∉ (applyOp s (.deleteItem id)).embeddings) ∧
    (∀ s : DBState, Reachable s → s.invariant) := by
  constructor
  · intro s id
    exact ⟨Finset.not_mem_erase id s.items, Finset.not_mem_erase id s.embeddings⟩
  · intro s h
    induction h with
    | init => intro e he; exact absurd he (Finset.not_mem_empty e)
    | step op _ ih => exact applyOp_invariant _ op ih


/-- Witness for C9: deleting item `1` from a store holding item `1` with
its embedding, and the invariant at the (reachable) empty database. -/
theorem C9_cascade_no_orphans_witness :
    ((1 : Int) ∉ (applyOp ⟨{1}, {1}⟩ (.deleteItem 1)).items ∧
      (1 : Int) ∉ (applyOp ⟨{1}, {1}⟩ (.deleteItem 1)).embeddings) ∧
    (⟨∅, ∅⟩ : DBState).invariant :=
  ⟨C9_cascade_no_orphans.1 ⟨{1}, {1}⟩ 1,
    C9_cascade_no_orphans.2 ⟨∅, ∅⟩ Reachable.init⟩


/-! ## Wardrobe metadata route (from `app/api/wardrobe/route.ts`) -/

/-- JavaScript `Array.prototype.indexOf`: first index of `x`, `-1` when
absent. -/
def jsIndexOf (l : List String) (x : String) : Int :=
  match l with
  | [] => -1
  | a :: rest =>
      if a = x then 0
      else
        let r := jsIndexOf rest x
        if r = -1 then -1 else r + 1

/-- JavaScript indexing `values[i]`: `undefined` (here `none`) for a
negative or out-of-range index. -/
def jsAt (values : List String) (i : Int) : Option String :=
  if i < 0 then none else values.get? i.toNat

/-- JavaScript `v?.trim() || dflt`: the trimmed string, or the default
when the element is `undefined` or trims to the empty string. -/
def jsTrimOr (v : Option String) (dflt : String) : String :=
  match v with
  | none => dflt
  | some s => if s.trim = "" then dflt else s.trim

/-- JavaScript `parseInt(s, 10)` as used on the label columns.  Parse
failure (`NaN`) is modelled as `0`; no claim observes these fields. -/
def jsParseInt (s : String) : Int := (s.toInt?).getD 0

/-- One row of the JSON array the route returns, from the object literal
built in `route.ts`. -/
structure RouteItem where
  id : String
  filename : String
  imagePath : String
  category : String
  weatherLabel : Option Int
  formalityLabel : Option Int
deriving DecidableEq

/-- One CSV data row mapped to a `RouteItem`, from the `lines.slice(1).map`
body in `route.ts`. -/
def parseRow (idIndex imageNameIndex imagePathIndex categoryIndex
    weatherLabelIndex formalityLabelIndex : Int) (line : String) : RouteItem :=
  let values := line.splitOn ","
  { id := jsTrimOr (jsAt values idIndex) ""
    filename := jsTrimOr (jsAt values imageNameIndex) ""
    imagePath := "/wardrobe/" ++ jsTrimOr (jsAt values imagePathIndex) ""
    category := (jsTrimOr (jsAt values categoryIndex) "Unknown").toLower
    weatherLabel :=
      if weatherLabelIndex ≠ -1 then
        some (jsParseInt (jsTrimOr (jsAt values weatherLabelIndex) "0"))
      else none
    formalityLabel :=
      if formalityLabelIndex ≠ -1 then
        some (jsParseInt (jsTrimOr (jsAt values formalityLabelIndex) "0"))
      else none }

/-- The `GET` handler of `app/api/wardrobe/route.ts`.  The input is the
result of `fs.readFile` on `public/metadata.csv`: `none` when the read
throws (caught by the handler's `try/catch`).  The output is the JSON
array and the HTTP status. -/
def wardrobeGET (file : Option String) : List RouteItem × Nat :=
  match file with
  | none => ([], 200)
  | some csvContent =>
      let lines := csvContent.trim.splitOn "\n"
      if lines.length < 2 then ([], 200)
      else
        let headers := (lines.headD "").splitOn ","
        let idIndex := jsIndexOf headers "id"
        let imageNameIndex := jsIndexOf headers "image_name"
        let imagePathIndex := jsIndexOf headers "image_path"
        let categoryIndex := jsIndexOf headers "item_category"
        let weatherLabelIndex := jsIndexOf headers "weather_label"
        let formalityLabelIndex := jsIndexOf headers "formality_label"
        if idIndex = -1 ∨ imagePathIndex = -1 then ([], 200)
        else
          (lines.drop 1 |>.map (parseRow idIndex imageNameIndex imagePathIndex
            categoryIndex weatherLabelIndex formalityLabelIndex), 200)

/-- **C10.** The wardrobe metadata route always answers HTTP 200, and in
each degraded state — file unreadable, fewer than two CSV lines, or the
required `id`/`image_path` columns missing from the header — the body is
the empty JSON array. -/
theorem C10_route_never_errors (file : Option String) :
    (wardrobeGET file).2 = 200 ∧
    (file = none → (wardrobeGET file).1 = []) ∧
    (∀ c, file = some c →
      ((c.trim.splitOn "\n").length < 2 → (wardrobeGET file).1 = []) ∧
      ((jsIndexOf (((c.trim.splitOn "\n").headD "").splitOn ",") "id" = -1 ∨
        jsIndexOf (((c.trim.splitOn "\n").headD "").splitOn ",") "image_path" = -1) →
        (wardrobeGET file).1 = [])) := by
  cases file with
  | none => exact ⟨rfl, fun _ => rfl, fun c hc => by cases hc⟩
  | some c =>
      refine ⟨?_, ?_, ?_⟩
      · show (wardrobeGET (some c)).2 = 200
        simp only [wardrobeGET]
        split_ifs <;> rfl
      · intro h; cases h
      · rintro c' hc'
        injection hc' with hc''
        subst hc''
        constructor
        · intro hlen
          show (wardrobeGET (some c)).1 = []
          simp only [wardrobeGET]
          rw [if_pos hlen]
        · intro hmiss
          show (wardrobeGET (some c)).1 = []
          simp only [wardrobeGET]
          by_cases hlen : (c.trim.splitOn "\n").length < 2
          · rw [if_pos hlen]
          · rw [if_neg hlen, if_pos hmiss]

/-- Witness for C10 at the unreadable-file input (the `fs.readFile`
rejection caught by the handler): the route answers `([], 200)`. -/
theorem C10_route_never_errors_witness :
    (wardrobeGET none).2 = 200 ∧ (wardrobeGET none).1 = [] :=
  ⟨(C10_route_never_errors none).1, (C10_route_never_errors none).2.1 rfl⟩


/-! ## Outfit assembler

Modelled from the spec: the `POST /recommend` backend (`backend/main.py`)
is missing from the repository snapshot; only its caller
(`app/outfit/page.tsx`), its request/response types
(`wardrobe-app/types/api.ts`) and spec §4.4 describe it.  The pairwise
scorer is passed in as a rational-valued parameter (§2's component
dependency), and the per-category shortlist ranking of §4.4 step 2 is the
vote-score ranking the spec prescribes for the first category (the
centroid-similarity ranking for later categories needs the missing
embedding code); the claims proved below hold for every scorer and do not
depend on the shortlist order. -/

/-- A candidate pool item as the assembler sees it: the columns of
`clothing_items` in `schema.sql` that the hard filter and tie-breaks
read. -/
structure PoolItem where
  id : Int
  category : String
  weatherLabel : Nat
  formalityLabel : Nat
  voteScore : Int
deriving DecidableEq

/-- A recommendation request: requested weather bitmask and occasion
string (cf. `RecommendRequest` in `types/api.ts`). -/
structure RecRequest where
  weather : Nat
  occasion : String
deriving DecidableEq

/-- Modelled from the spec: the occasion-to-formality-bit mapping, using
the occasion strings of `app/outfit/page.tsx` (`OCCASIONS`) and the bits
of `FORMALITY_LABELS`; an unknown occasion maps to no bit. -/
def occasionFormalityBit (occasion : String) : Option Nat :=
  if occasion = "casual" then some 1
  else if occasion = "formal" then some 2
  else if occasion = "sports" then some 4
  else if occasion = "party" then some 8
  else none

/-- Modelled from the spec: §4.4 step 1's hard filter — nonzero weather
intersection, and nonzero formality intersection whenever the occasion
maps to a formality bit. -/
def eligible (req : RecRequest) (it : PoolItem) : Bool :=
  (it.weatherLabel &&& req.weather != 0) &&
    (match occasionFormalityBit req.occasion with
     | some b => it.formalityLabel &&& b != 0
     | none => true)

/-- The eligible pool items of one category. -/
def eligibleFor (req : RecRequest) (pool : List PoolItem) (cat : String) : List PoolItem :=
  pool.filter (fun it => it.category == cat && eligible req it)

/-- Insertion step of the vote-score ordering (descending). -/
def insertByVote (it : PoolItem) : List PoolItem → List PoolItem
  | [] => [it]
  | x :: xs => if x.voteScore ≤ it.voteScore then it :: x :: xs else x :: insertByVote it xs

/-- Insertion sort by descending vote score. -/
def sortByVote : List PoolItem → List PoolItem
  | [] => []
  | x :: xs => insertByVote x (sortByVote xs)

/-- Modelled from the spec: §4.4 step 2's top-N shortlist per category
(default N = 5). -/
def shortlist (N : Nat) (req : RecRequest) (pool : List PoolItem) (cat : String) :
    List PoolItem :=
  (sortByVote (eligibleFor req pool cat)).take N

/-- Modelled from the spec: §4.4 step 3's enumeration of one shortlisted
item per required category. -/
def combos (N : Nat) (req : RecRequest) (pool : List PoolItem) :
    List String → List (List (String × PoolItem))
  | [] => [[]]
  | cat :: cats =>
      (shortlist N req pool cat).flatMap (fun it =>
        (combos N req pool cats).map (fun rest => (cat, it) :: rest))

/-- Sum of scores over all unordered pairs of the selected items (§4.4
step 3). -/
def pairScoreSum (scoreFn : PoolItem → PoolItem → ℚ) : List PoolItem → ℚ
  | [] => 0
  | a :: rest => (rest.map (scoreFn a)).sum + pairScoreSum scoreFn rest

/-- Total vote score of a combination, for §4.4 step 4's first
tie-break. -/
def totalVote (combo : List (String × PoolItem)) : Int :=
  (combo.map (fun p => p.2.voteScore)).sum

/-- Lexicographic comparison of item-id lists, for §4.4 step 4's final
deterministic tie-break. -/
def idsLt : List Int → List Int → Bool
  | [], [] => false
  | [], _ :: _ => true
  | _ :: _, [] => false
  | a :: as, b :: bs => if a < b then true else if a = b then idsLt as bs else false

/-- Modelled from the spec: §4.4 step 4 preference order — higher
aggregate score, then higher total vote score, then lower item ids. -/
def betterCombo (scoreFn : PoolItem → PoolItem → ℚ)
    (c1 c2 : List (String × PoolItem)) : Bool :=
  if pairScoreSum scoreFn (c2.map Prod.snd) < pairScoreSum scoreFn (c1.map Prod.snd) then true
  else if pairScoreSum scoreFn (c1.map Prod.snd) < pairScoreSum scoreFn (c2.map Prod.snd) then false
  else if totalVote c2 < totalVote c1 then true
  else if totalVote c1 < totalVote c2 then false
  else idsLt (c1.map fun p => p.2.id) (c2.map fun p => p.2.id)

/-- First maximum of a list under a strict-preference test. -/
def pickBest (better : α → α → Bool) : List α → Option α
  | [] => none
  | x :: xs => some (xs.foldl (fun b y => if better y b then y else b) x)

/-- Modelled from the spec: §4.4's failure taxonomy (`NoCandidatesError`
naming the unsatisfiable category). -/
inductive RecError
  | noCandidates (category : String)
deriving DecidableEq

/-- Modelled from the spec: the assembler: hard-filter, per-category
shortlist, enumerate, and maximize; fails with `NoCandidatesError` naming
the first required category with no eligible item. -/
def recommend (scoreFn : PoolItem → PoolItem → ℚ) (N : Nat) (cats : List String)
    (pool : List PoolItem) (req : RecRequest) :
    Except RecError (List (String × PoolItem)) :=
  match cats.find? (fun c => (eligibleFor req pool c).isEmpty) with
  | some c => .error (.noCandidates c)
  | none =>
      match pickBest (betterCombo scoreFn) (combos N req pool cats) with
      | some best => .ok best
      | none => .error (.noCandidates "")

/-! ### Assembler lemmas -/

theorem mem_insertByVote (it y : PoolItem) (l : List PoolItem) :
    y ∈ insertByVote it l ↔ y = it ∨ y ∈ l := by
  induction l with
  | nil => simp [insertByVote]
  | cons x xs ih =>
      unfold insertByVote
      split
      · simp
      · simp only [List.mem_cons, ih]
        tauto

theorem mem_sortByVote (y : PoolItem) (l : List PoolItem) :
    y ∈ sortByVote l ↔ y ∈ l := by
  induction l with
  | nil => simp [sortByVote]
  | cons x xs ih =>
      unfold sortByVote
      rw [mem_insertByVote]
      simp [ih]

theorem sortByVote_eq_nil_iff (l : List PoolItem) : sortByVote l = [] ↔ l = [] := by
  cases l with
  | nil => simp [sortByVote]
  | cons x xs =>
      simp only [sortByVote]
      constructor
      · intro h
        exfalso
        have : x ∈ insertByVote x (sortByVote xs) := (mem_insertByVote x x _).mpr (Or.inl rfl)
        rw [h] at this
        exact List.not_mem_nil x this
      · intro h; cases h

theorem shortlist_subset_eligible (N : Nat) (req : RecRequest) (pool : List PoolItem)
    (cat : String) (it : PoolItem) (h : it ∈ shortlist N req pool cat) :
    it ∈ eligibleFor req pool cat := by
  have h1 : it ∈ sortByVote (eligibleFor req pool cat) :=
    List.mem_of_mem_take h
  exact (mem_sortByVote it _).mp h1

theorem shortlist_ne_nil (N : Nat) (req : RecRequest) (pool : List PoolItem)
    (cat : String) (hN : 0 < N) (h : eligibleFor req pool cat ≠ []) :
    shortlist N req pool cat ≠ [] := by
  unfold shortlist
  rw [Ne, List.take_eq_nil_iff]
  push_neg
  exact ⟨by omega, by rwa [Ne, sortByVote_eq_nil_iff]⟩

/-- Soundness of the enumeration: every enumerated combination pairs the
categories, in order, with shortlisted items. -/
theorem combos_sound (N : Nat) (req : RecRequest) (pool : List PoolItem)
    (cats : List String) (combo : List (String × PoolItem))
    (h : combo ∈ combos N req pool cats) :
    combo.map Prod.fst = cats ∧ ∀ p ∈ combo, p.2 ∈ shortlist N req pool p.1 := by
  induction cats generalizing combo with
  | nil =>
      simp only [combos, List.mem_singleton] at h
      subst h
      exact ⟨rfl, by intro p hp; cases hp⟩
  | cons cat cats ih =>
      simp only [combos, List.mem_flatMap, List.mem_map] at h
      obtain ⟨it, hit, rest, hrest, rfl⟩ := h
      obtain ⟨hmap, hmem⟩ := ih rest hrest
      refine ⟨by simp [hmap], ?_⟩
      intro p hp
      rcases List.mem_cons.mp hp with rfl | hp'
      · exact hit
      · exact hmem p hp'

/-- The enumeration is nonempty when every category has a nonempty
shortlist. -/
theorem combos_ne_nil (N : Nat) (req : RecRequest) (pool : List PoolItem)
    (cats : List String) (h : ∀ c ∈ cats, shortlist N req pool c ≠ []) :
    combos N req pool cats ≠ [] := by
  induction cats with
  | nil => simp [combos]
  | cons cat cats ih =>
      have hcat := h cat (List.mem_cons_self cat cats)
      have hrest : combos N req pool cats ≠ [] :=
        ih (fun c hc => h c (List.mem_cons_of_mem cat hc))
      obtain ⟨it, its, hits⟩ := List.exists_cons_of_ne_nil hcat
      obtain ⟨r, rs, hrs⟩ := List.exists_cons_of_ne_nil hrest
      simp only [combos, hits, hrs]
      intro hcontra
      have : ((cat, it) :: r) ∈ ([] : List (List (String × PoolItem))) := by
        rw [← hcontra]
        simp [List.mem_flatMap]
      exact List.not_mem_nil _ this

/-- The fold underlying `pickBest` returns one of its inputs. -/
theorem foldl_best_mem (better : α → α → Bool) (x : α) (xs : List α) :
    xs.foldl (fun b y => if better y b then y else b) x ∈ x :: xs := by
  induction xs generalizing x with
  | nil => exact List.mem_cons_self x []
  | cons y ys ih =>
      simp only [List.foldl_cons]
      rcases List.mem_cons.mp (ih (if better y x then y else x)) with h | h
      · rw [h]
        split
        · exact List.mem_cons_of_mem x (List.mem_cons_self y ys)
        · exact List.mem_cons_self x (y :: ys)
      · exact List.mem_cons_of_mem x (List.mem_cons_of_mem y h)

theorem pickBest_mem (better : α → α → Bool) (l : List α) (b : α)
    (h : pickBest better l = some b) : b ∈ l := by
  cases l with
  | nil => cases h
  | cons x xs =>
      simp only [pickBest, Option.some.injEq] at h
      rw [← h]
      exact foldl_best_mem better x xs

/-- What the boolean hard filter means, stated as the claim states it. -/
theorem eligible_iff (req : RecRequest) (it : PoolItem) :
    eligible req it = true ↔
      (it.weatherLabel &&& req.weather ≠ 0 ∧
        ∀ b, occasionFormalityBit req.occasion = some b →
          it.formalityLabel &&& b ≠ 0) := by
  unfold eligible
  cases hocc : occasionFormalityBit req.occasion with
  | none => simp
  | some b =>
      simp only [Bool.and_eq_true, bne_iff_ne, Ne]
      constructor
      · rintro ⟨h1, h2⟩
        refine ⟨h1, fun b' hb' => ?_⟩
        injection hb' with hb''
        rwa [← hb'']
      · rintro ⟨h1, h2⟩
        exact ⟨h1, h2 b rfl⟩

/-- Items returned by the eligibility filter are pool members of that
category passing the hard filter. -/
theorem mem_eligibleFor (req : RecRequest) (pool : List PoolItem) (cat : String)
    (it : PoolItem) (h : it ∈ eligibleFor req pool cat) :
    it ∈ pool ∧ it.category = cat ∧ eligible req it = true := by
  unfold eligibleFor at h
  rw [List.mem_filter, Bool.and_eq_true, beq_iff_eq] at h
  exact ⟨h.1, h.2.1, h.2.2⟩

/-! ### Claim theorems: assembler -/

/-- **C3.** Whenever `recommend` succeeds, the returned outfit pairs each
required category with an item of that category that passes the hard
filter (nonzero weather intersection, and nonzero formality intersection
whenever the occasion maps to a formality bit), and — the required
categories being distinct — no two returned items share a category. -/
theorem C3_assembler_hard_filter (scoreFn : PoolItem → PoolItem → ℚ) (N : Nat)
    (cats : List String) (pool : List PoolItem) (req : RecRequest)
    (out : List (String × PoolItem))
    (hok : recommend scoreFn N cats pool req = .ok out) (hnd : cats.Nodup) :
    (∀ p ∈ out, p.2.category = p.1 ∧
      p.2.weatherLabel &&& req.weather ≠ 0 ∧
      (∀ b, occasionFormalityBit req.occasion = some b →
        p.2.formalityLabel &&& b ≠ 0)) ∧
    out.Pairwise (fun p q => p.2.category ≠ q.2.category) := by
  unfold recommend at hok
  rcases hfind : cats.find? (fun c => (eligibleFor req pool c).isEmpty) with _ | c
  · rw [hfind] at hok
    rcases hpick : pickBest (betterCombo scoreFn) (combos N req pool cats) with _ | best
    · rw [hpick] at hok; cases hok
    · rw [hpick] at hok
      injection hok with hout
      subst hout
      have hmem := pickBest_mem _ _ _ hpick
      obtain ⟨hmap, hitems⟩ := combos_sound N req pool cats best hmem
      constructor
      · intro p hp
        have hsl := hitems p hp
        have hel := shortlist_subset_eligible N req pool p.1 p.2 hsl
        obtain ⟨-, hcat, helig⟩ := mem_eligibleFor req pool p.1 p.2 hel
        obtain ⟨hw, hf⟩ := (eligible_iff req p.2).mp helig
        exact ⟨hcat, hw, hf⟩
      · have hnd' : (best.map Prod.fst).Nodup := hmap ▸ hnd
        have hpw : best.Pairwise (fun p q => p.1 ≠ q.1) :=
          List.pairwise_map.mp hnd'
        refine hpw.imp_of_mem ?_
        intro p q hp hq hne
        have hcp := (mem_eligibleFor req pool p.1 p.2
          (shortlist_subset_eligible N req pool p.1 p.2 (hitems p hp))).2.1
        have hcq := (mem_eligibleFor req pool q.1 q.2
          (shortlist_subset_eligible N req pool q.1 q.2 (hitems q hq))).2.1
        rw [hcp, hcq]
        exact hne
  · rw [hfind] at hok; cases hok

/-- Witness for C3: one required category, one eligible item, the default
shortlist size. -/
theorem C3_assembler_hard_filter_witness :
    (∀ p ∈ [("tops", (⟨1, "tops", 1, 1, 0⟩ : PoolItem))], p.2.category = p.1 ∧
      p.2.weatherLabel &&& (1 : Nat) ≠ 0 ∧
      (∀ b, occasionFormalityBit "casual" = some b →
        p.2.formalityLabel &&& b ≠ 0)) ∧
    List.Pairwise (fun p q => p.2.category ≠ q.2.category)
      [("tops", (⟨1, "tops", 1, 1, 0⟩ : PoolItem))] :=
  C3_assembler_hard_filter (fun _ _ => 0) 5 ["tops"] [⟨1, "tops", 1, 1, 0⟩]
    ⟨1, "casual"⟩ [("tops", ⟨1, "tops", 1, 1, 0⟩)] rfl (by decide)

/-- **C4.** If some required category has no eligible item after the hard
filter, `recommend` fails with `NoCandidatesError` naming such a
category; and whenever it succeeds, every required category appears in
the returned outfit (none is silently omitted). -/
theorem C4_no_candidates_error (scoreFn : PoolItem → PoolItem → ℚ) (N : Nat)
    (cats : List String) (pool : List PoolItem) (req : RecRequest) :
    ((∃ c ∈ cats, eligibleFor req pool c = []) →
      ∃ c, recommend scoreFn N cats pool req = .error (.noCandidates c) ∧
        c ∈ cats ∧ eligibleFor req pool c = []) ∧
    (∀ out, recommend scoreFn N cats pool req = .ok out →
      ∀ c ∈ cats, ∃ it, (c, it) ∈ out) := by
  constructor
  · rintro ⟨c0, hc0, hempty⟩
    rcases hfind : cats.find? (fun c => (eligibleFor req pool c).isEmpty) with _ | c
    · exfalso
      rw [List.find?_eq_none] at hfind
      exact hfind c0 hc0 (by simp [hempty])
    · refine ⟨c, ?_, List.mem_of_find?_eq_some hfind, ?_⟩
      · unfold recommend
        rw [hfind]
      · have := List.find?_some hfind
        simpa [List.isEmpty_iff] using this
  · intro out hok c hc
    unfold recommend at hok
    rcases hfind : cats.find? (fun c => (eligibleFor req pool c).isEmpty) with _ | c'
    · rw [hfind] at hok
      rcases hpick : pickBest (betterCombo scoreFn) (combos N req pool cats) with _ | best
      · rw [hpick] at hok; cases hok
      · rw [hpick] at hok
        injection hok with hout
        subst hout
        have hmem := pickBest_mem _ _ _ hpick
        obtain ⟨hmap, -⟩ := combos_sound N req pool cats best hmem
        have : c ∈ best.map Prod.fst := hmap ▸ hc
        obtain ⟨p, hp, hfst⟩ := List.mem_map.mp this
        exact ⟨p.2, by rw [← hfst, Prod.mk.eta]; exact hp⟩
    · rw [hfind] at hok; cases hok

/-- Witness for C4: two required categories, the pool covering only one
of them — the assembler fails naming the uncovered category "shoes". -/
theorem C4_no_candidates_error_witness :
    ∃ c, recommend (fun _ _ => (0 : ℚ)) 5 ["tops", "shoes"]
        [⟨1, "tops", 1, 1, 0⟩] ⟨1, "casual"⟩ = .error (.noCandidates c) ∧
      c ∈ ["tops", "shoes"] ∧
      eligibleFor ⟨1, "casual"⟩ [⟨1, "tops", 1, 1, 0⟩] c = [] :=
  (C4_no_candidates_error (fun _ _ => 0) 5 ["tops", "shoes"]
    [⟨1, "tops", 1, 1, 0⟩] ⟨1, "casual"⟩).1 ⟨"shoes", by decide, by decide⟩


/-! ## Compatibility scorer

Modelled from the spec: the `POST /score` backend is missing from the
repository snapshot (the spec's §9 notes the original scoring logic was a
placeholder stub); the formula below is §4.3's:
`score = w1·cosine01 + w2·label_compatibility + w3·vote_weight` with the
logistic squashing of the summed vote scores.  Vectors live in
`EuclideanSpace ℝ (Fin 512)` per the 512-dimension schema columns. -/

/-- An item as the scorer sees it: id, fashion embedding vector (512-dim,
per `item_embeddings.fashion_embedding`), formality bitmask and vote
score. -/
structure ScoreItem where
  id : Int
  fashionVector : EuclideanSpace ℝ (Fin 512)
  formalityLabel : Nat
  voteScore : Int

/-- Cosine similarity of two embedding vectors (division by zero — a zero
vector — yields `0` under real division). -/
noncomputable def cosineSimilarity (x y : EuclideanSpace ℝ (Fin 512)) : ℝ :=
  (inner x y : ℝ) / (‖x‖ * ‖y‖)

/-- Modelled from the spec: §4.3's cosine similarity "rescaled from
[-1,1] to [0,1]". -/
noncomputable def cosine01 (x y : EuclideanSpace ℝ (Fin 512)) : ℝ :=
  (cosineSimilarity x y + 1) / 2

/-- Modelled from the spec: §4.3's `label_compatibility` — `1` when the
formality bitmasks share a bit, else the configured penalty (default
`0`). -/
noncomputable def labelCompatibility (penalty : ℝ) (a b : ScoreItem) : ℝ :=
  if a.formalityLabel &&& b.formalityLabel ≠ 0 then 1 else penalty

/-- The logistic squashing function `1 / (1 + exp (-x))`. -/
noncomputable def logistic (x : ℝ) : ℝ := 1 / (1 + Real.exp (-x))

/-- Modelled from the spec: §4.3's `vote_weight`, the logistic of the
summed vote scores. -/
noncomputable def voteWeight (a b : ScoreItem) : ℝ :=
  logistic ((a.voteScore : ℝ) + (b.voteScore : ℝ))

/-- Modelled from the spec: §4.3's compatibility score with configurable
weights (defaults: equal thirds, penalty 0). -/
noncomputable def score (w1 w2 w3 penalty : ℝ) (a b : ScoreItem) : ℝ :=
  w1 * cosine01 a.fashionVector b.fashionVector +
    w2 * labelCompatibility penalty a b + w3 * voteWeight a b

/-! ### Scorer lemmas -/

theorem cosineSimilarity_comm (x y : EuclideanSpace ℝ (Fin 512)) :
    cosineSimilarity x y = cosineSimilarity y x := by
  unfold cosineSimilarity
  rw [real_inner_comm, mul_comm]

theorem cosineSimilarity_le_one (x y : EuclideanSpace ℝ (Fin 512)) :
    -1 ≤ cosineSimilarity x y ∧ cosineSimilarity x y ≤ 1 :=
  abs_le.mp (abs_real_inner_div_norm_mul_norm_le_one x y)

theorem cosine01_mem (x y : EuclideanSpace ℝ (Fin 512)) :
    0 ≤ cosine01 x y ∧ cosine01 x y ≤ 1 := by
  obtain ⟨hl, hr⟩ := cosineSimilarity_le_one x y
  unfold cosine01
  constructor <;> linarith

theorem cosine01_self (x : EuclideanSpace ℝ (Fin 512)) (hx : x ≠ 0) :
    cosine01 x x = 1 := by
  have hnorm : ‖x‖ ≠ 0 := norm_ne_zero_iff.mpr hx
  unfold cosine01 cosineSimilarity
  rw [real_inner_self_eq_norm_mul_norm, div_self (mul_ne_zero hnorm hnorm)]
  norm_num

theorem labelCompatibility_comm (penalty : ℝ) (a b : ScoreItem) :
    labelCompatibility penalty a b = labelCompatibility penalty b a := by
  unfold labelCompatibility
  rw [Nat.and_comm]

theorem labelCompatibility_mem (penalty : ℝ) (hp0 : 0 ≤ penalty) (hp1 : penalty ≤ 1)
    (a b : ScoreItem) :
    0 ≤ labelCompatibility penalty a b ∧ labelCompatibility penalty a b ≤ 1 := by
  unfold labelCompatibility
  split <;> constructor <;> linarith

theorem logistic_pos (x : ℝ) : 0 < logistic x := by
  unfold logistic
  positivity

theorem logistic_lt_one (x : ℝ) : logistic x < 1 := by
  unfold logistic
  rw [div_lt_one (by positivity)]
  have := Real.exp_pos (-x)
  linarith

theorem logistic_mono (x y : ℝ) (h : x ≤ y) : logistic x ≤ logistic y := by
  unfold logistic
  have hexp : Real.exp (-y) ≤ Real.exp (-x) := Real.exp_le_exp.mpr (by linarith)
  have hpos : (0 : ℝ) < 1 + Real.exp (-y) := by positivity
  apply one_div_le_one_div_of_le hpos
  linarith

theorem logistic_strict_mono (x y : ℝ) (h : x < y) : logistic x < logistic y := by
  unfold logistic
  have hexp : Real.exp (-y) < Real.exp (-x) := Real.exp_lt_exp.mpr (by linarith)
  have hpos : (0 : ℝ) < 1 + Real.exp (-y) := by positivity
  apply one_div_lt_one_div_of_lt hpos
  linarith

theorem voteWeight_comm (a b : ScoreItem) : voteWeight a b = voteWeight b a := by
  unfold voteWeight
  rw [add_comm]

/-! ### Claim theorems: scorer -/

/-- **C2.** For every admissible weight configuration (nonnegative weights
summing to 1, penalty in `[0,1]`) and every pair of items, the
compatibility score is symmetric and lies in `[0,1]`. -/
theorem C2_score_symmetric_bounded (w1 w2 w3 penalty : ℝ)
    (h1 : 0 ≤ w1) (h2 : 0 ≤ w2) (h3 : 0 ≤ w3) (hsum : w1 + w2 + w3 = 1)
    (hp0 : 0 ≤ penalty) (hp1 : penalty ≤ 1) (a b : ScoreItem) :
    score w1 w2 w3 penalty a b = score w1 w2 w3 penalty b a ∧
    0 ≤ score w1 w2 w3 penalty a b ∧ score w1 w2 w3 penalty a b ≤ 1 := by
  refine ⟨?_, ?_, ?_⟩
  · unfold score
    have hcos : cosine01 a.fashionVector b.fashionVector =
        cosine01 b.fashionVector a.fashionVector := by
      unfold cosine01
      rw [cosineSimilarity_comm]
    rw [hcos, labelCompatibility_comm, voteWeight_comm]
  · have hc := cosine01_mem a.fashionVector b.fashionVector
    have hl := labelCompatibility_mem penalty hp0 hp1 a b
    have hv := logistic_pos ((a.voteScore : ℝ) + (b.voteScore : ℝ))
    unfold score voteWeight
    have t1 := mul_nonneg h1 hc.1
    have t2 := mul_nonneg h2 hl.1
    have t3 := mul_nonneg h3 (le_of_lt hv)
    linarith
  · have hc := cosine01_mem a.fashionVector b.fashionVector
    have hl := labelCompatibility_mem penalty hp0 hp1 a b
    have hv := logistic_lt_one ((a.voteScore : ℝ) + (b.voteScore : ℝ))
    unfold score voteWeight
    have t1 : w1 * cosine01 a.fashionVector b.fashionVector ≤ w1 * 1 :=
      mul_le_mul_of_nonneg_left hc.2 h1
    have t2 : w2 * labelCompatibility penalty a b ≤ w2 * 1 :=
      mul_le_mul_of_nonneg_left hl.2 h2
    have t3 : w3 * logistic ((a.voteScore : ℝ) + (b.voteScore : ℝ)) ≤ w3 * 1 :=
      mul_le_mul_of_nonneg_left (le_of_lt hv) h3
    linarith

/-- Witness for C2 at the default configuration (equal thirds, penalty 0)
and a concrete pair of items. -/
theorem C2_score_symmetric_bounded_witness :
    score (1/3) (1/3) (1/3) 0 ⟨1, 0, 1, 2⟩ ⟨2, 0, 3, -1⟩ =
      score (1/3) (1/3) (1/3) 0 ⟨2, 0, 3, -1⟩ ⟨1, 0, 1, 2⟩ ∧
    0 ≤ score (1/3) (1/3) (1/3) 0 ⟨1, 0, 1, 2⟩ ⟨2, 0, 3, -1⟩ ∧
    score (1/3) (1/3) (1/3) 0 ⟨1, 0, 1, 2⟩ ⟨2, 0, 3, -1⟩ ≤ 1 :=
  C2_score_symmetric_bounded (1/3) (1/3) (1/3) 0
    (by norm_num) (by norm_num) (by norm_num) (by norm_num)
    (by norm_num) (by norm_num) ⟨1, 0, 1, 2⟩ ⟨2, 0, 3, -1⟩

/-- **C6 counterexample.** Under the default weight configuration a pair
with identical vectors and identical labels can score strictly below a
pair of distinct items, because the vote-weight term depends on the vote
scores: an item with vote score `-1000` compared with itself scores below
two distinct maximally-voted items with the same vectors and labels. -/
theorem C6_counterexample :
    (⟨2, 0, 1, 1000⟩ : ScoreItem) ≠ ⟨3, 0, 1, 1000⟩ ∧
    score (1/3) (1/3) (1/3) 0 ⟨1, 0, 1, -1000⟩ ⟨1, 0, 1, -1000⟩ <
      score (1/3) (1/3) (1/3) 0 ⟨2, 0, 1, 1000⟩ ⟨3, 0, 1, 1000⟩ := by
  constructor
  · intro h
    injection h with hid hrest
    exact absurd hid (by norm_num)
  · have hv : voteWeight (⟨1, 0, 1, -1000⟩ : ScoreItem) ⟨1, 0, 1, -1000⟩ <
        voteWeight (⟨2, 0, 1, 1000⟩ : ScoreItem) ⟨3, 0, 1, 1000⟩ := by
      unfold voteWeight
      apply logistic_strict_mono
      norm_num
    have h0 : cosine01 (0 : EuclideanSpace ℝ (Fin 512)) 0 = 1 / 2 := by
      unfold cosine01 cosineSimilarity
      norm_num
    have hlab : labelCompatibility (0 : ℝ) ⟨1, 0, 1, -1000⟩ ⟨1, 0, 1, -1000⟩ = 1 := by
      unfold labelCompatibility
      exact if_pos (by decide)
    have hlab' : labelCompatibility (0 : ℝ) ⟨2, 0, 1, 1000⟩ ⟨3, 0, 1, 1000⟩ = 1 := by
      unfold labelCompatibility
      exact if_pos (by decide)
    show (1 : ℝ)/3 * cosine01 0 0 +
        1/3 * labelCompatibility 0 ⟨1, 0, 1, -1000⟩ ⟨1, 0, 1, -1000⟩ +
        1/3 * voteWeight ⟨1, 0, 1, -1000⟩ ⟨1, 0, 1, -1000⟩ <
      (1 : ℝ)/3 * cosine01 0 0 +
        1/3 * labelCompatibility 0 ⟨2, 0, 1, 1000⟩ ⟨3, 0, 1, 1000⟩ +
        1/3 * voteWeight ⟨2, 0, 1, 1000⟩ ⟨3, 0, 1, 1000⟩
    rw [h0, hlab, hlab']
    linarith

/-- **C6 (amended).** A pair with identical *nonzero* fashion vectors and
identical *nonzero* formality bitmasks scores at least as much as any
pair whose summed vote score does not exceed its own — in particular the
self-pair `score(a,a)` is always defined (the scorer is a total function)
and, for maximal vote scores, attains the maximum attainable value for
the weight configuration. -/
theorem C6_identical_pair_attains_max (w1 w2 w3 penalty : ℝ)
    (h1 : 0 ≤ w1) (h2 : 0 ≤ w2) (h3 : 0 ≤ w3) (hp1 : penalty ≤ 1)
    (a b c d : ScoreItem)
    (hvec : a.fashionVector = b.fashionVector) (hnz : a.fashionVector ≠ 0)
    (hlab : a.formalityLabel = b.formalityLabel) (hlabnz : a.formalityLabel ≠ 0)
    (hvote : c.voteScore + d.voteScore ≤ a.voteScore + b.voteScore) :
    score w1 w2 w3 penalty c d ≤ score w1 w2 w3 penalty a b := by
  have hcab : cosine01 a.fashionVector b.fashionVector = 1 := by
    rw [← hvec]
    exact cosine01_self a.fashionVector hnz
  have hlabab : labelCompatibility penalty a b = 1 := by
    unfold labelCompatibility
    rw [← hlab, Nat.and_self]
    exact if_pos hlabnz
  have hccd := cosine01_mem c.fashionVector d.fashionVector
  have hlcd : labelCompatibility penalty c d ≤ 1 := by
    unfold labelCompatibility
    split
    · exact le_refl 1
    · exact hp1
  have hvw : voteWeight c d ≤ voteWeight a b := by
    unfold voteWeight
    apply logistic_mono
    exact_mod_cast hvote
  unfold score
  rw [hcab, hlabab]
  have t1 : w1 * cosine01 c.fashionVector d.fashionVector ≤ w1 * 1 :=
    mul_le_mul_of_nonneg_left hccd.2 h1
  have t2 : w2 * labelCompatibility penalty c d ≤ w2 * 1 :=
    mul_le_mul_of_nonneg_left hlcd h2
  have t3 : w3 * voteWeight c d ≤ w3 * voteWeight a b :=
    mul_le_mul_of_nonneg_left hvw h3
  linarith

/-- Witness for the amended C6: the all-ones vector, formality bit 1,
a self-pair with vote score 1000 against a distinct lower-voted pair,
under the default weights. -/
theorem C6_identical_pair_attains_max_witness :
    score (1/3) (1/3) (1/3) 0 ⟨2, (fun _ => 1), 1, 0⟩ ⟨3, (fun _ => 1), 1, -5⟩ ≤
      score (1/3) (1/3) (1/3) 0 ⟨1, (fun _ => 1), 1, 1000⟩ ⟨1, (fun _ => 1), 1, 1000⟩ :=
  C6_identical_pair_attains_max (1/3) (1/3) (1/3) 0
    (by norm_num) (by norm_num) (by norm_num) (by norm_num)
    ⟨1, (fun _ => 1), 1, 1000⟩ ⟨1, (fun _ => 1), 1, 1000⟩
    ⟨2, (fun _ => 1), 1, 0⟩ ⟨3, (fun _ => 1), 1, -5⟩
    rfl
    (by
      intro h
      have h0 := congrFun h ⟨0, by norm_num⟩
      norm_num at h0)
    rfl
    (by norm_num)
    (by norm_num)

end Wardrobe
